import Mathlib

/-!
# Verification of `flatiron_snowflake_loader/loader.py`

A shallow embedding of the loader script in Lean 4, together with theorems
settling the specification's claims about it.

Strings are modelled as `List Char`.  The warehouse, the filesystem and the
archive are external collaborators; the loader's interaction with them is
modelled as the sequence of effect events it emits (SQL statements, scratch
directory creation/removal, archive unpacking), with a failure oracle
deciding which event, if any, the collaborator rejects.  Since the script is
straight-line code with no error handling, rejection of an event truncates
the run at that event.
-/

namespace FlatironLoader

/-! ## Python string primitives used by the source -/

/-- Here `pyIsPre pat s` is Python `s.startswith(pat)`: `pat` matches the front
of `s` character by character. -/
def pyIsPre : List Char → List Char → Bool
  | [], _ => true
  | _ :: _, [] => false
  | p :: ps, c :: cs => p == c && pyIsPre ps cs

/-- One scanning step of Python `str.replace(pat, repl)` over a list of
characters, with an explicit fuel argument so that the recursion is
structural (the fuel is always instantiated with the length of the scanned
list, which bounds the number of scanning steps).  At each position the
scanner tests whether `pat` starts here; on a match it emits `repl` and
skips `pat.length` characters, otherwise it keeps one character and moves
on — Python's leftmost, non-overlapping replace-all.  Both call sites in
the source use a non-empty pattern. -/
def pyReplaceFuel (pat repl : List Char) (fuel : Nat) (s : List Char) : List Char :=
  match s, fuel with
  | [], _ => []
  | c :: cs, 0 => c :: cs
  | c :: cs, fuel + 1 =>
    if pyIsPre pat (c :: cs) then
      repl ++ pyReplaceFuel pat repl fuel (List.drop (pat.length - 1) cs)
    else
      c :: pyReplaceFuel pat repl fuel cs

/-- Python `s.replace(pat, repl)`: replace every non-overlapping occurrence
of `pat` in `s` by `repl`, scanning left to right. -/
def pyReplace (s pat repl : List Char) : List Char :=
  pyReplaceFuel pat repl s.length s

/-- Python `pat in s` (substring containment): some position of `s` starts
with `pat`. -/
def containsSub (pat : List Char) : List Char → Bool
  | [] => pyIsPre pat []
  | c :: cs => pyIsPre pat (c :: cs) || containsSub pat cs

/-- Python `s.endswith(pat)`. -/
def pyEndsWith (s pat : List Char) : Bool :=
  pyIsPre pat.reverse s.reverse

/-- Python `pathlib.Path(p).name` for POSIX-style stage paths without a
trailing slash: the characters after the last `/`. -/
def baseName (p : List Char) : List Char :=
  p.foldl (fun acc c => if c = '/' then [] else acc ++ [c]) []

/-! ## The pure naming functions of the source -/

/-- The fixed user-stage root `@~/` prepended by `get_stage_from_schema`
and stripped by `get_schema_from_stage`. -/
def stageRoot : List Char := "@~/".toList

/-- Source `get_stage_from_schema(schema)`: the f-string `@~/{schema}`. -/
def get_stage_from_schema (schema : List Char) : List Char :=
  stageRoot ++ schema

/-- Source `get_schema_from_stage(stage)`: `stage.replace('@~/', '')`. -/
def get_schema_from_stage (stage : List Char) : List Char :=
  pyReplace stage stageRoot []

/-- The compressed-CSV suffix `.csv.gz` used to filter staged files. -/
def csvGzSuffix : List Char := ".csv.gz".toList

/-- The table name derived in `create_tables_from_staged`:
`filename.replace('.csv.gz', '')`. -/
def tablenameOf (filename : List Char) : List Char :=
  pyReplace filename csvGzSuffix []

/-! ## Generic lemmas about the scanner -/

/-- A list starts with itself followed by anything. -/
theorem pyIsPre_append_self : ∀ (p t : List Char), pyIsPre p (p ++ t) = true
  | [], _ => rfl
  | a :: as, t => by
    simp [pyIsPre, pyIsPre_append_self as t]

/-- Dropping the length of the left part of an append yields the right part. -/
theorem drop_len_append : ∀ (l t : List Char), List.drop l.length (l ++ t) = t
  | [], _ => rfl
  | _ :: as, t => drop_len_append as t

/-- Taking the length of the left part of an append yields the left part. -/
theorem take_len_append : ∀ (l t : List Char), List.take l.length (l ++ t) = l
  | [], _ => rfl
  | a :: as, t => by simp [take_len_append as t]

/-- A front match of a list is a front match of any long-enough take. -/
theorem pyIsPre_take :
    ∀ (p t : List Char) (n : Nat), pyIsPre p t = true → p.length ≤ n →
      pyIsPre p (t.take n) = true
  | [], _, _, _, _ => rfl
  | a :: as, [], _, h, _ => by simp [pyIsPre] at h
  | a :: as, b :: bs, 0, _, hn => by simp at hn
  | a :: as, b :: bs, n + 1, h, hn => by
    simp only [pyIsPre, Bool.and_eq_true] at h
    simp only [List.take_succ_cons, pyIsPre, Bool.and_eq_true]
    exact ⟨h.1, pyIsPre_take as bs n h.2 (by simpa using hn)⟩

/-- The scanner on an empty list returns the empty list, for every fuel. -/
theorem pyReplaceFuel_nil (pat repl : List Char) (fuel : Nat) :
    pyReplaceFuel pat repl fuel [] = [] := by
  cases fuel <;> rfl

/-- Scanner step on a match: emit the replacement and skip the pattern. -/
theorem pyReplaceFuel_cons_pos (pat repl : List Char) (c : Char) (cs : List Char)
    (fuel : Nat) (h : pyIsPre pat (c :: cs) = true) :
    pyReplaceFuel pat repl (fuel + 1) (c :: cs) =
      repl ++ pyReplaceFuel pat repl fuel (List.drop (pat.length - 1) cs) := by
  simp [pyReplaceFuel, h]

/-- Scanner step on a non-match: keep one character and move on. -/
theorem pyReplaceFuel_cons_neg (pat repl : List Char) (c : Char) (cs : List Char)
    (fuel : Nat) (h : pyIsPre pat (c :: cs) = false) :
    pyReplaceFuel pat repl (fuel + 1) (c :: cs) =
      c :: pyReplaceFuel pat repl fuel cs := by
  simp [pyReplaceFuel, h]

/-- The scanner leaves a list untouched when the pattern occurs nowhere
in it. -/
theorem pyReplaceFuel_of_not_contains (pat repl : List Char) :
    ∀ (fuel : Nat) (s : List Char), s.length ≤ fuel →
      containsSub pat s = false → pyReplaceFuel pat repl fuel s = s
  | fuel, [], _, _ => pyReplaceFuel_nil pat repl fuel
  | 0, c :: cs, hf, _ => by simp at hf
  | fuel + 1, c :: cs, hf, hc => by
    simp only [containsSub, Bool.or_eq_false_iff] at hc
    rw [pyReplaceFuel_cons_neg pat repl c cs fuel hc.1]
    have hlen : cs.length ≤ fuel := by simpa using hf
    rw [pyReplaceFuel_of_not_contains pat repl fuel cs hlen hc.2]

/-- Replacing a non-empty pattern that sits at the front of the scanned
list and occurs nowhere afterwards: the front occurrence becomes the
replacement and the tail is untouched. -/
theorem pyReplaceFuel_front (pat repl : List Char) (hne : pat ≠ [])
    (fuel : Nat) (s : List Char) (hf : (pat ++ s).length ≤ fuel)
    (hc : containsSub pat s = false) :
    pyReplaceFuel pat repl fuel (pat ++ s) = repl ++ s := by
  match pat, hne with
  | p :: pr, _ =>
    match fuel with
    | 0 => simp at hf
    | fuel + 1 =>
      have hpre : pyIsPre (p :: pr) (p :: (pr ++ s)) = true :=
        pyIsPre_append_self (p :: pr) s
      show pyReplaceFuel (p :: pr) repl (fuel + 1) (p :: (pr ++ s)) = repl ++ s
      rw [pyReplaceFuel_cons_pos (p :: pr) repl p (pr ++ s) fuel hpre]
      have hdrop : List.drop ((p :: pr).length - 1) (pr ++ s) = s := by
        simpa using drop_len_append pr s
      rw [hdrop]
      have hlen : s.length ≤ fuel := by
        simp [List.length_append] at hf
        omega
      rw [pyReplaceFuel_of_not_contains (p :: pr) repl fuel s hlen hc]

/-- A front match yields substring containment. -/
theorem containsSub_of_pyIsPre {pat t : List Char}
    (h : pyIsPre pat t = true) : containsSub pat t = true := by
  cases t with
  | nil => simpa [containsSub] using h
  | cons c cs => simp [containsSub, h]

/-- Replacing a non-empty pattern that occurs only as the trailing suffix
of the scanned list (no occurrence survives removal of the final
character) strips exactly that suffix. -/
theorem pyReplaceFuel_trailing (pat repl : List Char) (hne : pat ≠ []) :
    ∀ (fuel : Nat) (s : List Char), (s ++ pat).length ≤ fuel →
      containsSub pat (s ++ pat.dropLast) = false →
      pyReplaceFuel pat repl fuel (s ++ pat) = s ++ repl := by
  intro fuel s
  induction s generalizing fuel with
  | nil =>
    intro hf _
    match pat, hne with
    | p :: pr, _ =>
      match fuel with
      | 0 => simp at hf
      | fuel + 1 =>
        have hpre : pyIsPre (p :: pr) (p :: pr) = true := by
          have h := pyIsPre_append_self (p :: pr) []
          simpa using h
        show pyReplaceFuel (p :: pr) repl (fuel + 1) (p :: pr) = [] ++ repl
        have hstep := pyReplaceFuel_cons_pos (p :: pr) repl p pr fuel hpre
        rw [hstep]
        have hdrop : List.drop ((p :: pr).length - 1) pr = [] := by
          simpa using List.drop_length pr
        rw [hdrop, pyReplaceFuel_nil, List.append_nil, List.nil_append]
  | cons c s' ih =>
    intro hf hc
    match pat, hne with
    | p :: pr, _ =>
      match fuel with
      | 0 => simp at hf
      | fuel + 1 =>
        have hc0 : containsSub (p :: pr) (c :: (s' ++ (p :: pr).dropLast)) = false := hc
        have hlast : (p :: pr).dropLast ++ [(p :: pr).getLast (by simp)] = p :: pr :=
          List.dropLast_append_getLast (by simp)
        have hnotpre : pyIsPre (p :: pr) (c :: (s' ++ (p :: pr))) = false := by
          cases hb : pyIsPre (p :: pr) (c :: (s' ++ (p :: pr))) with
          | false => rfl
          | true =>
            exfalso
            have hlenle :
                (p :: pr).length ≤ (c :: (s' ++ (p :: pr).dropLast)).length := by
              simp only [List.length_cons, List.length_append, List.length_dropLast]
              omega
            have heq : (c :: (s' ++ (p :: pr))) =
                (c :: (s' ++ (p :: pr).dropLast)) ++ [(p :: pr).getLast (by simp)] := by
              simp only [List.cons_append, List.append_assoc, hlast]
            have htake : List.take (c :: (s' ++ (p :: pr).dropLast)).length
                (c :: (s' ++ (p :: pr))) = c :: (s' ++ (p :: pr).dropLast) := by
              rw [heq]
              exact take_len_append _ _
            have hpre2 : pyIsPre (p :: pr) (c :: (s' ++ (p :: pr).dropLast)) = true := by
              have h := pyIsPre_take (p :: pr) (c :: (s' ++ (p :: pr)))
                (c :: (s' ++ (p :: pr).dropLast)).length hb hlenle
              rwa [htake] at h
            have hcontains :
                containsSub (p :: pr) (c :: (s' ++ (p :: pr).dropLast)) = true :=
              containsSub_of_pyIsPre hpre2
            rw [hc0] at hcontains
            exact Bool.false_ne_true hcontains
        show pyReplaceFuel (p :: pr) repl (fuel + 1) (c :: (s' ++ (p :: pr))) =
          (c :: s') ++ repl
        rw [pyReplaceFuel_cons_neg (p :: pr) repl c (s' ++ (p :: pr)) fuel hnotpre]
        have hc' : containsSub (p :: pr) (s' ++ (p :: pr).dropLast) = false := by
          have h := hc0
          simp only [containsSub, Bool.or_eq_false_iff] at h
          exact h.2
        have hf' : (s' ++ (p :: pr)).length ≤ fuel := by
          simp [List.length_append] at hf ⊢
          omega
        rw [ih fuel hf' hc']
        rfl

/-! ## Claim C1: the stage/schema round trip -/

/-- Claim C1 (as stated) is false: `get_schema_from_stage` uses Python
`replace`, which removes every occurrence of `@~/`, so a schema that itself
contains `@~/` does not round-trip.  At `s = "@~/"` the round trip returns
the empty string. -/
theorem roundtrip_cex :
    get_schema_from_stage (get_stage_from_schema ("@~/".toList)) ≠ "@~/".toList := by
  decide

/-- Claim C1 (amended): for every schema string that does not contain the
stage root `@~/` as a substring, composing the stage derivation with its
inverse is the identity. -/
theorem roundtrip_of_clean_schema (s : List Char)
    (h : containsSub stageRoot s = false) :
    get_schema_from_stage (get_stage_from_schema s) = s := by
  unfold get_schema_from_stage get_stage_from_schema pyReplace
  rw [pyReplaceFuel_front stageRoot [] (by decide) (stageRoot ++ s).length s
    (Nat.le_refl _) h]
  rfl

/-- Witness for the amended C1 at the schema `myschema`. -/
theorem roundtrip_of_clean_schema_witness :
    containsSub stageRoot ("myschema".toList) = false ∧
      get_schema_from_stage (get_stage_from_schema ("myschema".toList)) =
        "myschema".toList :=
  ⟨by decide, roundtrip_of_clean_schema ("myschema".toList) (by decide)⟩

/-! ## Claim C2: the derived table name -/

/-- Claim C2 (as stated) is false: the table name is derived with Python
`replace`, which removes every occurrence of `.csv.gz`, not only the
trailing one.  At filename `x.csv.gz.csv.gz` the derived name is `x`,
whereas stripping only the trailing suffix would leave `x.csv.gz`. -/
theorem tablename_cex :
    pyEndsWith ("x.csv.gz.csv.gz".toList) csvGzSuffix = true ∧
      tablenameOf ("x.csv.gz.csv.gz".toList) ≠
        ("x.csv.gz.csv.gz".toList).take
          (("x.csv.gz.csv.gz".toList).length - csvGzSuffix.length) := by
  decide

/-- Claim C2 (amended): for every filename of the form `base ++ ".csv.gz"`
in which `.csv.gz` occurs only as the trailing suffix (no occurrence
survives removal of the final character), the derived table name is exactly
`base`. -/
theorem tablename_strips_trailing_suffix (base : List Char)
    (h : containsSub csvGzSuffix (base ++ csvGzSuffix.dropLast) = false) :
    tablenameOf (base ++ csvGzSuffix) = base := by
  unfold tablenameOf pyReplace
  rw [pyReplaceFuel_trailing csvGzSuffix [] (by decide)
    (base ++ csvGzSuffix).length base (Nat.le_refl _) h]
  exact List.append_nil base

/-- Witness for the amended C2 at the filename `demo.csv.gz`. -/
theorem tablename_strips_trailing_suffix_witness :
    containsSub csvGzSuffix ("demo".toList ++ csvGzSuffix.dropLast) = false ∧
      tablenameOf ("demo".toList ++ csvGzSuffix) = "demo".toList :=
  ⟨by decide, tablename_strips_trailing_suffix ("demo".toList) (by decide)⟩

/-! ## Settings and their pydantic-style loading -/

/-- The `Settings(BaseSettings)` class: six required string fields. -/
structure Settings where
  snowflake_account : List Char
  snowflake_user : List Char
  snowflake_password : List Char
  snowflake_database : List Char
  snowflake_schema : List Char
  snowflake_warehouse : List Char
deriving DecidableEq, Repr

/-- The environment-sourced configuration visible to `Settings()`: for each
of the six fields, either the corresponding environment variable's value or
`none` when it is unset. -/
structure Env where
  snowflake_account : Option (List Char)
  snowflake_user : Option (List Char)
  snowflake_password : Option (List Char)
  snowflake_database : Option (List Char)
  snowflake_schema : Option (List Char)
  snowflake_warehouse : Option (List Char)
deriving DecidableEq, Repr

/-- Construction `Settings()`: pydantic validation of six required `str`
fields.  A field whose environment variable is unset raises a validation
error (modelled as `none`); a set variable is accepted as-is — pydantic
performs no emptiness check on a plain `str` field, so the empty string
passes validation. -/
def loadSettings (e : Env) : Option Settings :=
  match e.snowflake_account, e.snowflake_user, e.snowflake_password,
      e.snowflake_database, e.snowflake_schema, e.snowflake_warehouse with
  | some a, some u, some pw, some d, some sc, some w =>
    some ⟨a, u, pw, d, sc, w⟩
  | _, _, _, _, _, _ => none

/-- The assignment `settings.snowflake_schema = schema` performed by
`process` right after `Settings()`. -/
def effectiveSettings (s0 : Settings) (cliSchema : List Char) : Settings :=
  { s0 with snowflake_schema := cliSchema }

/-! ## Claim C4: configuration validation -/

/-- An environment in which all six required variables are set to the
empty string. -/
def envAllEmpty : Env :=
  ⟨some [], some [], some [], some [], some [], some []⟩

/-- Claim C4 (as stated) is false: `Settings()` does not reject empty
strings.  With all six environment variables set to the empty string,
construction succeeds, although the claim demands a `ConfigurationError`
whenever a required field is an empty string. -/
theorem loadSettings_empty_cex :
    loadSettings envAllEmpty = some ⟨[], [], [], [], [], []⟩ := by
  rfl

/-- Claim C4 (amended): `Settings()` construction fails exactly when some
required field is absent from the environment; a field that is present is
accepted even when it is the empty string. -/
theorem loadSettings_isSome_iff_all_present (e : Env) :
    (loadSettings e).isSome =
      (e.snowflake_account.isSome && e.snowflake_user.isSome &&
        e.snowflake_password.isSome && e.snowflake_database.isSome &&
        e.snowflake_schema.isSome && e.snowflake_warehouse.isSome) := by
  obtain ⟨a, u, pw, d, sc, w⟩ := e
  cases a <;> cases u <;> cases pw <;> cases d <;> cases sc <;> cases w <;> rfl

/-! ## Warehouse statements and run events -/

/-- The SQL statements issued through the cursor, abstracted by the data
interpolated into their text:
* `createSchemaIfNotExists s` — `CREATE SCHEMA IF NOT EXISTS {s}`;
* `useSchema s` — `USE SCHEMA {s}`;
* `putFile path stage` — `PUT file://{path} {stage}/`, with `path` recorded
  as its components relative to the scratch directory;
* `listStage stage` — `list {stage}/`;
* `createOrReplaceTable t stage f` — `CREATE OR REPLACE TABLE {t} USING
  TEMPLATE (... INFER_SCHEMA(LOCATION=>'{stage}/{f}' ...))`;
* `copyInto t stage f` — `copy into {t} from {stage}/{f} ...`. -/
inductive Stmt where
  | createSchemaIfNotExists (schema : List Char)
  | useSchema (schema : List Char)
  | putFile (path : List (List Char)) (stage : List Char)
  | listStage (stage : List Char)
  | createOrReplaceTable (tablename stage filename : List Char)
  | copyInto (tablename stage filename : List Char)
deriving DecidableEq, Repr

/-- The effects a run of `process` performs, in program order. -/
inductive Event where
  | loadedSettings (s : Settings)
  | connected (s : Settings)
  | sql (st : Stmt)
  | madeTempDir
  | unpackedArchive
  | removedTempDir
deriving DecidableEq, Repr

/-- Source `create_table_and_load(stage, tablename, filename, cursor)`: the two
statements it executes, in order. -/
def create_table_and_load (stage tablename filename : List Char) : List Stmt :=
  [Stmt.createOrReplaceTable tablename stage filename,
   Stmt.copyInto tablename stage filename]

/-- The loop body of `create_tables_from_staged` for one row of the stage
listing: compute the base filename, skip it silently unless it ends in
`.csv.gz`, otherwise derive the table name and create-and-load. -/
def fileStmts (stage row : List Char) : List Stmt :=
  if pyEndsWith (baseName row) csvGzSuffix then
    create_table_and_load stage (tablenameOf (baseName row)) (baseName row)
  else []

/-- Source `create_tables_from_staged(schema, cur)`: list the stage, then for each
listed row run the filtered create-and-load loop body.  The stage listing
returned by the warehouse is an input (`staged`, the first column of each
row of `fetchall`). -/
def create_tables_from_staged (schema : List Char)
    (staged : List (List Char)) : List Stmt :=
  Stmt.listStage (get_stage_from_schema schema) ::
    (staged.map (fileStmts (get_stage_from_schema schema))).flatten

/-- The filenames for which a `CREATE OR REPLACE TABLE` is issued in a
statement list. -/
def createdFilenames (stmts : List Stmt) : List (List Char) :=
  stmts.filterMap (fun st =>
    match st with
    | Stmt.createOrReplaceTable _ _ fn => some fn
    | _ => none)

/-- Computing `createdFilenames` of one loop body. -/
theorem createdFilenames_fileStmts (stage row : List Char) :
    createdFilenames (fileStmts stage row) =
      if pyEndsWith (baseName row) csvGzSuffix then [baseName row] else [] := by
  unfold fileStmts
  by_cases h : pyEndsWith (baseName row) csvGzSuffix = true
  · simp [h, create_table_and_load, createdFilenames]
  · simp [h, createdFilenames]

/-! ## Claim C6: the materialization filter -/

/-- Claim C6: materialization (a `CREATE OR REPLACE TABLE` followed by a
`COPY INTO`) is attempted exactly for the listed rows whose base filename
ends with `.csv.gz`, in listing order; every other row contributes no
statement at all.  In particular, for the listing
`["a.csv.gz", "b.txt", "c.csv.gz"]` exactly `a.csv.gz` and `c.csv.gz` are
materialized and `b.txt` is skipped. -/
theorem materialize_filter_exact :
    (∀ (schema : List Char) (staged : List (List Char)),
        createdFilenames (create_tables_from_staged schema staged) =
          (staged.map baseName).filter (fun fn => pyEndsWith fn csvGzSuffix)) ∧
      createdFilenames
          (create_tables_from_staged ("s".toList)
            ["a.csv.gz".toList, "b.txt".toList, "c.csv.gz".toList]) =
        ["a.csv.gz".toList, "c.csv.gz".toList] := by
  constructor
  · intro schema staged
    unfold create_tables_from_staged
    induction staged with
    | nil => rfl
    | cons row rest ih =>
      simp only [List.map_cons, List.flatten_cons, List.filter_cons]
      rw [show createdFilenames
          (Stmt.listStage (get_stage_from_schema schema) ::
            (fileStmts (get_stage_from_schema schema) row ++
              (rest.map (fileStmts (get_stage_from_schema schema))).flatten)) =
          createdFilenames (fileStmts (get_stage_from_schema schema) row) ++
            createdFilenames
              (Stmt.listStage (get_stage_from_schema schema) ::
                (rest.map (fileStmts (get_stage_from_schema schema))).flatten) by
        simp [createdFilenames, List.filterMap_append]]
      rw [ih, createdFilenames_fileStmts]
      by_cases h : pyEndsWith (baseName row) csvGzSuffix = true
      · simp [h]
      · simp [h]
  · decide

/-! ## The filesystem seen by the orchestrator -/

/-- An entry of the scratch directory after `shutil.unpack_archive`: a file
or a subdirectory with its own entries. -/
inductive FsEntry where
  | file (name : List Char)
  | dir (name : List Char) (children : List FsEntry)

/-- The name of an entry, as yielded by `pathlib.Path(temp_dir).iterdir()`
for the immediate children of the scratch directory. -/
def FsEntry.name : FsEntry → List Char
  | .file n => n
  | .dir n _ => n

mutual

/-- All paths present under an entry, as component lists relative to the
scratch directory (each directory itself included). -/
def fsEntryPaths : FsEntry → List (List (List Char))
  | .file n => [[n]]
  | .dir n cs => [n] :: (fsForestPaths cs).map (fun p => n :: p)

/-- All paths present under a list of entries. -/
def fsForestPaths : List FsEntry → List (List (List Char))
  | [] => []
  | e :: es => fsEntryPaths e ++ fsForestPaths es

end

/-! ## The orchestrator `process` -/

/-- Source `local_file_to_stage(file, schema, cursor)`: the single `PUT` statement
it executes, against the stage derived from the schema. -/
def local_file_to_stage (path : List (List Char)) (schema : List Char) : Stmt :=
  Stmt.putFile path (get_stage_from_schema schema)

/-- The inputs of one run of `process`: the CLI schema argument, the
environment configuration, the entries the archive unpacks to, and the
stage listing the warehouse returns for `list @~/{schema}/`. -/
structure RunInput where
  cliSchema : List Char
  env : Env
  extracted : List FsEntry
  staged : List (List Char)

/-- The sequence of effects `process` performs when no collaborator
rejects any of them, in program order: load settings and override the
schema field with the CLI argument, connect, create and use the schema,
make the scratch directory, unpack, `PUT` each immediate entry of the
scratch directory, remove the scratch directory, then materialize the
staged files.  `none` when `Settings()` itself fails validation. -/
def processEvents (inp : RunInput) : Option (List Event) :=
  match loadSettings inp.env with
  | none => none
  | some s0 =>
    some ([Event.loadedSettings (effectiveSettings s0 inp.cliSchema),
           Event.connected (effectiveSettings s0 inp.cliSchema),
           Event.sql (Stmt.createSchemaIfNotExists inp.cliSchema),
           Event.sql (Stmt.useSchema inp.cliSchema),
           Event.madeTempDir, Event.unpackedArchive]
      ++ inp.extracted.map
          (fun en => Event.sql (local_file_to_stage [en.name] inp.cliSchema))
      ++ [Event.removedTempDir]
      ++ (create_tables_from_staged inp.cliSchema inp.staged).map Event.sql)

/-- Running a straight-line sequence of effects against a failure oracle:
effects run in order; the first rejected effect aborts the run (the script
catches nothing), so the result is the performed trace — every effect up to
and including the rejected one — together with a success flag. -/
def runSeq {α : Type} (fails : α → Bool) : List α → List α × Bool
  | [] => ([], true)
  | e :: rest =>
    if fails e then ([e], false)
    else
      let r := runSeq fails rest
      (e :: r.1, r.2)

/-- One run of `process` against a failure oracle: `none` when settings
validation fails, otherwise the performed trace and success flag. -/
def processRun (fails : Event → Bool) (inp : RunInput) :
    Option (List Event × Bool) :=
  (processEvents inp).map (runSeq fails)

/-! ## Generic lemmas about `runSeq` -/

/-- A sequence whose members all succeed runs in full. -/
theorem runSeq_ok_append {α : Type} (fails : α → Bool) (l₁ l₂ : List α)
    (h : ∀ a ∈ l₁, fails a = false) :
    runSeq fails (l₁ ++ l₂) =
      (l₁ ++ (runSeq fails l₂).1, (runSeq fails l₂).2) := by
  induction l₁ with
  | nil => simp [runSeq]
  | cons a t ih =>
    have ha : fails a = false := h a (List.mem_cons_self a t)
    have ht : ∀ b ∈ t, fails b = false := fun b hb => h b (List.mem_cons_of_mem a hb)
    simp [runSeq, ha, ih ht]

/-- A rejected head aborts immediately. -/
theorem runSeq_fail_head {α : Type} (fails : α → Bool) (e : α) (l : List α)
    (h : fails e = true) : runSeq fails (e :: l) = ([e], false) := by
  simp [runSeq, h]

/-- The performed trace is a prefix of the planned sequence. -/
theorem runSeq_isPre {α : Type} (fails : α → Bool) :
    ∀ l : List α, (runSeq fails l).1 <+: l := by
  intro l
  induction l with
  | nil => simp [runSeq]
  | cons e rest ih =>
    by_cases h : fails e = true
    · rw [runSeq_fail_head fails e rest h]
      exact ⟨rest, rfl⟩
    · have h' : fails e = false := by
        cases hb : fails e
        · rfl
        · exact absurd hb h
      simp only [runSeq, h', Bool.false_eq_true, if_false]
      obtain ⟨t, ht⟩ := ih
      exact ⟨t, by rw [List.cons_append, ht]⟩

/-- A failed run's trace is the successful prefix followed by the single
rejected effect. -/
theorem runSeq_false_spec {α : Type} (fails : α → Bool) :
    ∀ l : List α, (runSeq fails l).2 = false →
      ∃ t f, (runSeq fails l).1 = t ++ [f] ∧ fails f = true ∧
        ∀ a ∈ t, fails a = false := by
  intro l
  induction l with
  | nil => intro h; simp [runSeq] at h
  | cons e rest ih =>
    intro h
    by_cases hb : fails e = true
    · rw [runSeq_fail_head fails e rest hb]
      exact ⟨[], e, rfl, hb, by simp⟩
    · have h' : fails e = false := by
        cases hc : fails e
        · rfl
        · exact absurd hc hb
      simp only [runSeq, h', Bool.false_eq_true, if_false] at h ⊢
      obtain ⟨t, f, h1, h2, h3⟩ := ih h
      refine ⟨e :: t, f, by simp [h1], h2, ?_⟩
      intro a ha
      rcases List.mem_cons.mp ha with rfl | ha'
      · exact h'
      · exact h3 a ha'

/-- A head that succeeds contributes itself and the run of the rest. -/
theorem runSeq_ok_head {α : Type} (fails : α → Bool) (e : α) (l : List α)
    (h : fails e = false) :
    runSeq fails (e :: l) = (e :: (runSeq fails l).1, (runSeq fails l).2) := by
  simp [runSeq, h]

/-! ## Claim C5: a rejected `CREATE OR REPLACE TABLE` aborts the run -/

/-- Claim C5: if, in the materialization loop over a stage listing
`pre ++ z :: post`, the warehouse accepts the listing statement and every
statement for the `pre` rows but rejects the `CREATE OR REPLACE TABLE` for
row `z` (whose base filename ends in `.csv.gz`), then the run performs
exactly the listing statement, the `pre` statements and the rejected
`CREATE`, and aborts: the corresponding `COPY INTO` for `z` is never
issued (provided it did not already occur among the `pre` statements) and
no statement for any `post` row is issued — nothing is caught or
retried. -/
theorem create_fail_aborts (schema z : List Char) (pre post : List (List Char))
    (fails : Stmt → Bool)
    (hsuffix : pyEndsWith (baseName z) csvGzSuffix = true)
    (hlist : fails (Stmt.listStage (get_stage_from_schema schema)) = false)
    (hok : ∀ st ∈ (pre.map (fileStmts (get_stage_from_schema schema))).flatten,
      fails st = false)
    (hfail : fails (Stmt.createOrReplaceTable (tablenameOf (baseName z))
      (get_stage_from_schema schema) (baseName z)) = true)
    (hnocopy : Stmt.copyInto (tablenameOf (baseName z))
        (get_stage_from_schema schema) (baseName z) ∉
      (pre.map (fileStmts (get_stage_from_schema schema))).flatten) :
    runSeq fails (create_tables_from_staged schema (pre ++ z :: post)) =
      (Stmt.listStage (get_stage_from_schema schema) ::
        ((pre.map (fileStmts (get_stage_from_schema schema))).flatten ++
          [Stmt.createOrReplaceTable (tablenameOf (baseName z))
            (get_stage_from_schema schema) (baseName z)]), false) ∧
      Stmt.copyInto (tablenameOf (baseName z)) (get_stage_from_schema schema)
          (baseName z) ∉
        (runSeq fails (create_tables_from_staged schema (pre ++ z :: post))).1 := by
  have hplan : create_tables_from_staged schema (pre ++ z :: post) =
      Stmt.listStage (get_stage_from_schema schema) ::
        ((pre.map (fileStmts (get_stage_from_schema schema))).flatten ++
          (fileStmts (get_stage_from_schema schema) z ++
            ((post.map (fileStmts (get_stage_from_schema schema))).flatten))) := by
    unfold create_tables_from_staged
    rw [List.map_append, List.flatten_append, List.map_cons, List.flatten_cons]
  have hz : fileStmts (get_stage_from_schema schema) z =
      [Stmt.createOrReplaceTable (tablenameOf (baseName z))
         (get_stage_from_schema schema) (baseName z),
       Stmt.copyInto (tablenameOf (baseName z)) (get_stage_from_schema schema)
         (baseName z)] := by
    unfold fileStmts create_table_and_load
    rw [if_pos hsuffix]
  have hrun : runSeq fails (create_tables_from_staged schema (pre ++ z :: post)) =
      (Stmt.listStage (get_stage_from_schema schema) ::
        ((pre.map (fileStmts (get_stage_from_schema schema))).flatten ++
          [Stmt.createOrReplaceTable (tablenameOf (baseName z))
            (get_stage_from_schema schema) (baseName z)]), false) := by
    rw [hplan, hz]
    rw [runSeq_ok_head fails _ _ hlist]
    rw [runSeq_ok_append fails _ _ hok]
    rw [show (Stmt.createOrReplaceTable (tablenameOf (baseName z))
          (get_stage_from_schema schema) (baseName z) ::
          Stmt.copyInto (tablenameOf (baseName z)) (get_stage_from_schema schema)
            (baseName z) :: []) ++
        ((post.map (fileStmts (get_stage_from_schema schema))).flatten) =
        Stmt.createOrReplaceTable (tablenameOf (baseName z))
          (get_stage_from_schema schema) (baseName z) ::
          (Stmt.copyInto (tablenameOf (baseName z)) (get_stage_from_schema schema)
            (baseName z) ::
            ((post.map (fileStmts (get_stage_from_schema schema))).flatten))
      from rfl]
    rw [runSeq_fail_head fails _ _ hfail]
  refine ⟨hrun, ?_⟩
  rw [hrun]
  intro hmem
  rcases List.mem_cons.mp hmem with heq | hmem'
  · exact Stmt.noConfusion heq
  · rcases List.mem_append.mp hmem' with hinpre | hinlast
    · exact hnocopy hinpre
    · rcases List.mem_singleton.mp hinlast with heq
      exact Stmt.noConfusion heq

/-- A failure oracle rejecting exactly the `CREATE OR REPLACE TABLE` for
the staged file `z.csv.gz` in schema `s`. -/
def failsCreateZ : Stmt → Bool := fun st =>
  decide (st = Stmt.createOrReplaceTable ("z".toList) ("@~/s".toList)
    ("z.csv.gz".toList))

/-- Witness for C5: schema `s`, listing `["a.csv.gz", "z.csv.gz",
"b.csv.gz"]`, with the oracle rejecting exactly the `CREATE OR REPLACE
TABLE` for `z.csv.gz`. -/
theorem create_fail_aborts_witness :
    pyEndsWith (baseName ("z.csv.gz".toList)) csvGzSuffix = true ∧
      (failsCreateZ (Stmt.listStage (get_stage_from_schema ("s".toList))) = false) ∧
      (∀ st ∈ ((["a.csv.gz".toList]).map
          (fileStmts (get_stage_from_schema ("s".toList)))).flatten,
        failsCreateZ st = false) ∧
      (failsCreateZ (Stmt.createOrReplaceTable (tablenameOf (baseName ("z.csv.gz".toList)))
        (get_stage_from_schema ("s".toList)) (baseName ("z.csv.gz".toList))) = true) ∧
      (Stmt.copyInto (tablenameOf (baseName ("z.csv.gz".toList)))
          (get_stage_from_schema ("s".toList)) (baseName ("z.csv.gz".toList)) ∉
        ((["a.csv.gz".toList]).map
          (fileStmts (get_stage_from_schema ("s".toList)))).flatten) ∧
      (runSeq failsCreateZ (create_tables_from_staged ("s".toList)
          (["a.csv.gz".toList] ++ ("z.csv.gz".toList) :: ["b.csv.gz".toList])) =
        (Stmt.listStage (get_stage_from_schema ("s".toList)) ::
          (((["a.csv.gz".toList]).map
              (fileStmts (get_stage_from_schema ("s".toList)))).flatten ++
            [Stmt.createOrReplaceTable (tablenameOf (baseName ("z.csv.gz".toList)))
              (get_stage_from_schema ("s".toList)) (baseName ("z.csv.gz".toList))]),
          false) ∧
        Stmt.copyInto (tablenameOf (baseName ("z.csv.gz".toList)))
            (get_stage_from_schema ("s".toList)) (baseName ("z.csv.gz".toList)) ∉
          (runSeq failsCreateZ (create_tables_from_staged ("s".toList)
            (["a.csv.gz".toList] ++ ("z.csv.gz".toList) :: ["b.csv.gz".toList]))).1) :=
  ⟨by decide, by decide, by decide, by decide, by decide,
    create_fail_aborts ("s".toList) ("z.csv.gz".toList) ["a.csv.gz".toList]
      ["b.csv.gz".toList] failsCreateZ (by decide) (by decide) (by decide)
      (by decide) (by decide)⟩

/-- Every statement of the materialization phase is either the stage
listing or one of the two statements of `create_table_and_load` for some
listed row whose base filename passes the `.csv.gz` filter. -/
theorem mem_create_tables_cases (schema : List Char) (staged : List (List Char))
    (st : Stmt) (h : st ∈ create_tables_from_staged schema staged) :
    st = Stmt.listStage (get_stage_from_schema schema) ∨
      ∃ row ∈ staged, pyEndsWith (baseName row) csvGzSuffix = true ∧
        (st = Stmt.createOrReplaceTable (tablenameOf (baseName row))
            (get_stage_from_schema schema) (baseName row) ∨
          st = Stmt.copyInto (tablenameOf (baseName row))
            (get_stage_from_schema schema) (baseName row)) := by
  unfold create_tables_from_staged at h
  rcases List.mem_cons.mp h with heq | hmem
  · exact Or.inl heq
  · right
    rcases List.mem_flatten.mp hmem with ⟨l, hl, hst⟩
    rcases List.mem_map.mp hl with ⟨row, hrow, rfl⟩
    refine ⟨row, hrow, ?_⟩
    unfold fileStmts at hst
    by_cases hf : pyEndsWith (baseName row) csvGzSuffix = true
    · rw [if_pos hf] at hst
      unfold create_table_and_load at hst
      rcases List.mem_cons.mp hst with h1 | h2
      · exact ⟨hf, Or.inl h1⟩
      · rcases List.mem_singleton.mp h2 with rfl
        exact ⟨hf, Or.inr rfl⟩
    · rw [if_neg hf] at hst
      exact absurd hst (List.not_mem_nil st)

/-! ## Claim C3: the scratch directory on failing runs -/

/-- A fully populated environment configuration used by the concrete run
inputs below. -/
def envOk : Env :=
  ⟨some ("acct".toList), some ("user".toList), some ("pw".toList),
    some ("db".toList), some ("envschema".toList), some ("wh".toList)⟩

/-- A run on an archive extracting to `{x.csv, y.csv.gz}`, before anything
is staged. -/
def inpUploadFail : RunInput :=
  ⟨"sch".toList, envOk,
    [FsEntry.file ("x.csv".toList), FsEntry.file ("y.csv.gz".toList)], []⟩

/-- A failure oracle rejecting exactly the `PUT` of `y.csv.gz`. -/
def failsPutY : Event → Bool := fun e =>
  decide (e = Event.sql (Stmt.putFile ["y.csv.gz".toList] ("@~/sch".toList)))

/-- Claim C3 is violated by the code (a bug the specification flags):
`shutil.rmtree(temp_dir)` runs only after the upload loop, with no
`try`/`finally`, so when the warehouse rejects the `PUT` of `y.csv.gz` the
run aborts with the scratch-directory removal never performed — although
removal does occur on the success path of the very same input. -/
theorem scratch_dir_leak_on_upload_failure :
    ((processRun failsPutY inpUploadFail).getD ([], true)).2 = false ∧
      Event.removedTempDir ∉ ((processRun failsPutY inpUploadFail).getD ([], true)).1 ∧
      Event.removedTempDir ∈
        ((processRun (fun _ => false) inpUploadFail).getD ([], true)).1 := by
  decide

/-! ## Claim C7: both files staged, only `y.csv.gz` materialized -/

/-- The run of C7: an archive extracting to `{x.csv, y.csv.gz}`, whose
stage listing after upload shows exactly those two files. -/
def inpXY : RunInput :=
  ⟨"sch".toList, envOk,
    [FsEntry.file ("x.csv".toList), FsEntry.file ("y.csv.gz".toList)],
    ["x.csv".toList, "y.csv.gz".toList]⟩

/-- Does an event create a table from the staged file `fn`? -/
def isCreateFor (fn : List Char) : Event → Bool := fun e =>
  match e with
  | Event.sql (Stmt.createOrReplaceTable _ _ f) => f == fn
  | _ => false

/-- Claim C7: on the archive `{x.csv, y.csv.gz}` a fully successful run
performs every planned effect; both files are `PUT` to the stage
`@~/sch/`, table `y` is created from `y.csv.gz` and bulk-loaded, and no
table is ever created from `x.csv` — it stays staged without a table. -/
theorem stage_both_materialize_only_y :
    (runSeq (fun _ => false) ((processEvents inpXY).getD [])).2 = true ∧
      (runSeq (fun _ => false) ((processEvents inpXY).getD [])).1 =
        (processEvents inpXY).getD [] ∧
      Event.sql (Stmt.putFile ["x.csv".toList]
        (get_stage_from_schema ("sch".toList))) ∈ (processEvents inpXY).getD [] ∧
      Event.sql (Stmt.putFile ["y.csv.gz".toList]
        (get_stage_from_schema ("sch".toList))) ∈ (processEvents inpXY).getD [] ∧
      Event.sql (Stmt.createOrReplaceTable ("y".toList)
        (get_stage_from_schema ("sch".toList)) ("y.csv.gz".toList)) ∈
          (processEvents inpXY).getD [] ∧
      Event.sql (Stmt.copyInto ("y".toList)
        (get_stage_from_schema ("sch".toList)) ("y.csv.gz".toList)) ∈
          (processEvents inpXY).getD [] ∧
      ∀ e ∈ (processEvents inpXY).getD [], isCreateFor ("x.csv".toList) e = false := by
  decide

/-! ## Claim C8: the CLI schema argument governs the whole run -/

/-- Every schema or stage a statement interpolates into its SQL text is
the given schema, respectively the stage derived from it. -/
def stmtUsesOnlySchema (sch : List Char) : Stmt → Prop
  | .createSchemaIfNotExists s => s = sch
  | .useSchema s => s = sch
  | .putFile _ stg => stg = get_stage_from_schema sch
  | .listStage stg => stg = get_stage_from_schema sch
  | .createOrReplaceTable _ stg _ => stg = get_stage_from_schema sch
  | .copyInto _ stg _ => stg = get_stage_from_schema sch

/-- Every schema an event depends on — the schema field of the settings it
connects with, or the schema/stage of the statement it executes — is the
given one. -/
def eventUsesOnlySchema (sch : List Char) : Event → Prop
  | .loadedSettings s => s.snowflake_schema = sch
  | .connected s => s.snowflake_schema = sch
  | .sql st => stmtUsesOnlySchema sch st
  | .madeTempDir => True
  | .unpackedArchive => True
  | .removedTempDir => True

/-- Claim C8: whenever settings load, the schema field of the settings
actually used is the CLI argument (overriding whatever the environment
configured), and every event of the run — settings, connection, schema
creation and use, staging, materialization — refers only to the CLI
schema or the stage derived from it. -/
theorem cli_schema_governs_run (inp : RunInput) (evs : List Event) (s0 : Settings)
    (h0 : loadSettings inp.env = some s0)
    (h : processEvents inp = some evs) :
    (effectiveSettings s0 inp.cliSchema).snowflake_schema = inp.cliSchema ∧
      ∀ e ∈ evs, eventUsesOnlySchema inp.cliSchema e := by
  refine ⟨rfl, ?_⟩
  unfold processEvents at h
  rw [h0] at h
  rcases Option.some.inj h with rfl
  intro e he
  rcases List.mem_append.mp he with h1 | h6
  · rcases List.mem_append.mp h1 with h2 | h5
    · rcases List.mem_append.mp h2 with h3 | h4
      · fin_cases h3 <;>
          simp [eventUsesOnlySchema, stmtUsesOnlySchema, effectiveSettings]
      · rcases List.mem_map.mp h4 with ⟨en, _, rfl⟩
        simp [eventUsesOnlySchema, stmtUsesOnlySchema, local_file_to_stage]
    · rcases List.mem_singleton.mp h5 with rfl
      trivial
  · rcases List.mem_map.mp h6 with ⟨st, hst, rfl⟩
    rcases mem_create_tables_cases inp.cliSchema inp.staged st hst with heq | hcase
    · rw [heq]; rfl
    · rcases hcase with ⟨row, _, _, hcc⟩
      rcases hcc with rfl | rfl <;> rfl

/-- Witness for C8 at a concrete input whose environment-configured schema
`envschema` differs from the CLI argument `sch`. -/
theorem cli_schema_governs_run_witness :
    loadSettings inpXY.env = some ⟨"acct".toList, "user".toList, "pw".toList,
        "db".toList, "envschema".toList, "wh".toList⟩ ∧
      processEvents inpXY = some ((processEvents inpXY).getD []) ∧
      ((effectiveSettings ⟨"acct".toList, "user".toList, "pw".toList,
          "db".toList, "envschema".toList, "wh".toList⟩
          inpXY.cliSchema).snowflake_schema = inpXY.cliSchema ∧
        ∀ e ∈ (processEvents inpXY).getD [],
          eventUsesOnlySchema inpXY.cliSchema e) :=
  ⟨rfl, rfl,
    cli_schema_governs_run inpXY ((processEvents inpXY).getD [])
      ⟨"acct".toList, "user".toList, "pw".toList, "db".toList,
        "envschema".toList, "wh".toList⟩ rfl rfl⟩

/-! ## Claim C9: strict sequential ordering of the orchestrator -/

/-- The orchestrator step a statement belongs to (see `eventStep`). -/
def stmtStep : Stmt → Nat
  | .createSchemaIfNotExists _ => 2
  | .useSchema _ => 2
  | .putFile _ _ => 4
  | .listStage _ => 6
  | .createOrReplaceTable _ _ _ => 6
  | .copyInto _ _ _ => 6

/-- The orchestrator step an event belongs to: configure = 0, connect = 1,
schema create/use = 2, unpack = 3, upload = 4, scratch cleanup = 5,
materialize = 6. -/
def eventStep : Event → Nat
  | .loadedSettings _ => 0
  | .connected _ => 1
  | .sql st => stmtStep st
  | .madeTempDir => 3
  | .unpackedArchive => 3
  | .removedTempDir => 5

/-- A constant list of naturals is `≤`-sorted. -/
theorem pairwise_le_of_const (k : Nat) :
    ∀ l : List Nat, (∀ x ∈ l, x = k) → List.Pairwise (· ≤ ·) l
  | [], _ => List.Pairwise.nil
  | a :: t, h => by
    constructor
    · intro b hb
      rw [h a (List.mem_cons_self a t), h b (List.mem_cons_of_mem a hb)]
    · exact pairwise_le_of_const k t (fun x hx => h x (List.mem_cons_of_mem a hx))

/-- Concatenating two `≤`-sorted lists separated by a threshold is
`≤`-sorted. -/
theorem pairwise_le_append_of (k : Nat) (l₁ l₂ : List Nat)
    (h₁ : List.Pairwise (· ≤ ·) l₁) (h₂ : List.Pairwise (· ≤ ·) l₂)
    (hb₁ : ∀ x ∈ l₁, x ≤ k) (hb₂ : ∀ y ∈ l₂, k ≤ y) :
    List.Pairwise (· ≤ ·) (l₁ ++ l₂) :=
  List.pairwise_append.mpr
    ⟨h₁, h₂, fun a ha b hb => Nat.le_trans (hb₁ a ha) (hb₂ b hb)⟩

/-- Every event of the materialization phase sits at step 6. -/
theorem eventStep_materializer (schema : List Char) (staged : List (List Char)) :
    ∀ y ∈ ((create_tables_from_staged schema staged).map Event.sql).map eventStep,
      y = 6 := by
  intro y hy
  rcases List.mem_map.mp hy with ⟨e, he, rfl⟩
  rcases List.mem_map.mp he with ⟨st, hst, rfl⟩
  rcases mem_create_tables_cases schema staged st hst with heq | ⟨row, _, _, hcc⟩
  · rw [heq]; rfl
  · rcases hcc with rfl | rfl <;> rfl

/-- Claim C9: the run's planned events are sorted by orchestrator step
(configure, connect, schema create/use, unpack, upload, cleanup,
materialize — no branching), the performed trace is always a prefix of the
plan (no retry), and a failed run's trace ends at the rejected event, so
no event of any later step is ever performed. -/
theorem orchestrator_sequential (inp : RunInput) (evs : List Event)
    (fails : Event → Bool) (h : processEvents inp = some evs) :
    List.Pairwise (· ≤ ·) (evs.map eventStep) ∧
      (runSeq fails evs).1 <+: evs ∧
      ((runSeq fails evs).2 = false →
        ∃ f, fails f = true ∧ f ∈ (runSeq fails evs).1 ∧
          ∀ e ∈ (runSeq fails evs).1, eventStep e ≤ eventStep f) := by
  have hpw : List.Pairwise (· ≤ ·) (evs.map eventStep) := by
    unfold processEvents at h
    cases h0 : loadSettings inp.env with
    | none => rw [h0] at h; exact absurd h (by simp)
    | some s0 =>
      rw [h0] at h
      rcases Option.some.inj h with rfl
      rw [List.map_append, List.map_append, List.map_append]
      have hMA : List.map eventStep
          [Event.loadedSettings (effectiveSettings s0 inp.cliSchema),
           Event.connected (effectiveSettings s0 inp.cliSchema),
           Event.sql (Stmt.createSchemaIfNotExists inp.cliSchema),
           Event.sql (Stmt.useSchema inp.cliSchema),
           Event.madeTempDir, Event.unpackedArchive] = [0, 1, 2, 2, 3, 3] := rfl
      have hMB : ∀ x ∈ List.map eventStep (inp.extracted.map
          (fun en => Event.sql (local_file_to_stage [en.name] inp.cliSchema))),
          x = 4 := by
        intro x hx
        rcases List.mem_map.mp hx with ⟨e, he, rfl⟩
        rcases List.mem_map.mp he with ⟨en, _, rfl⟩
        rfl
      rw [hMA]
      apply pairwise_le_append_of 6
      · apply pairwise_le_append_of 5
        · apply pairwise_le_append_of 4
          · decide
          · exact pairwise_le_of_const 4 _ hMB
          · intro x hx
            fin_cases hx <;> decide
          · intro y hy
            rw [hMB y hy]
        · exact List.pairwise_singleton _ _
        · intro x hx
          rcases List.mem_append.mp hx with hx1 | hx2
          · fin_cases hx1 <;> decide
          · rw [hMB x hx2]
            decide
        · intro y hy
          rcases List.mem_singleton.mp hy with rfl
          decide
      · exact pairwise_le_of_const 6 _
          (eventStep_materializer inp.cliSchema inp.staged)
      · intro x hx
        rcases List.mem_append.mp hx with hx1 | hx2
        · rcases List.mem_append.mp hx1 with hx3 | hx4
          · fin_cases hx3 <;> decide
          · rw [hMB x hx4]
            decide
        · rcases List.mem_singleton.mp hx2 with rfl
          decide
      · intro y hy
        rw [eventStep_materializer inp.cliSchema inp.staged y hy]
  refine ⟨hpw, runSeq_isPre fails evs, ?_⟩
  intro hfalse
  obtain ⟨t, f, h1, h2, h3⟩ := runSeq_false_spec fails evs hfalse
  refine ⟨f, h2, by
    rw [h1]; exact List.mem_append_right t (List.mem_singleton_self f), ?_⟩
  have hsub : (runSeq fails evs).1.Sublist evs := (runSeq_isPre fails evs).sublist
  have hpw2 : List.Pairwise (· ≤ ·) ((runSeq fails evs).1.map eventStep) :=
    List.Pairwise.sublist (hsub.map eventStep) hpw
  rw [h1] at hpw2 ⊢
  intro e he
  rcases List.mem_append.mp he with het | hef
  · rw [List.map_append] at hpw2
    exact (List.pairwise_append.mp hpw2).2.2 (eventStep e)
      (List.mem_map_of_mem eventStep het) (eventStep f) (by simp)
  · rcases List.mem_singleton.mp hef with rfl
    exact Nat.le_refl _

/-- Witness for C9 at the concrete run input `inpXY`, with an oracle that
rejects nothing. -/
theorem orchestrator_sequential_witness :
    processEvents inpXY = some ((processEvents inpXY).getD []) ∧
      (List.Pairwise (· ≤ ·) (((processEvents inpXY).getD []).map eventStep) ∧
        (runSeq (fun _ => false) ((processEvents inpXY).getD [])).1 <+:
          (processEvents inpXY).getD [] ∧
        ((runSeq (fun _ => false) ((processEvents inpXY).getD [])).2 = false →
          ∃ f, (fun _ => false) f = true ∧
            f ∈ (runSeq (fun _ => false) ((processEvents inpXY).getD [])).1 ∧
            ∀ e ∈ (runSeq (fun _ => false) ((processEvents inpXY).getD [])).1,
              eventStep e ≤ eventStep f)) :=
  ⟨rfl, orchestrator_sequential inpXY ((processEvents inpXY).getD [])
    (fun _ => false) rfl⟩

/-! ## Claim C10: only immediate scratch-directory entries are uploaded -/

/-- The paths handed to the file-put operation in a run, in order. -/
def putPaths (evs : List Event) : List (List (List Char)) :=
  evs.filterMap (fun e =>
    match e with
    | Event.sql (Stmt.putFile p _) => some p
    | _ => none)

/-- Distribution of `putPaths` over concatenation. -/
theorem putPaths_append (l₁ l₂ : List Event) :
    putPaths (l₁ ++ l₂) = putPaths l₁ ++ putPaths l₂ :=
  List.filterMap_append l₁ l₂ _

/-- The upload loop contributes exactly one path per immediate entry. -/
theorem putPaths_uploads (sch : List Char) (l : List FsEntry) :
    putPaths (l.map (fun en => Event.sql (local_file_to_stage [en.name] sch))) =
      l.map (fun en => [en.name]) := by
  induction l with
  | nil => rfl
  | cons en t ih =>
    simp only [List.map_cons]
    rw [show putPaths (Event.sql (local_file_to_stage [en.name] sch) ::
        t.map (fun en => Event.sql (local_file_to_stage [en.name] sch))) =
      [en.name] :: putPaths (t.map
        (fun en => Event.sql (local_file_to_stage [en.name] sch))) from rfl]
    rw [ih]

/-- The materialization phase contributes no path. -/
theorem putPaths_materializer (schema : List Char) (staged : List (List Char)) :
    putPaths ((create_tables_from_staged schema staged).map Event.sql) = [] := by
  unfold putPaths
  rw [List.filterMap_eq_nil_iff]
  intro e he
  rcases List.mem_map.mp he with ⟨st, hst, rfl⟩
  rcases mem_create_tables_cases schema staged st hst with heq | ⟨row, _, _, hcc⟩
  · rw [heq]
  · rcases hcc with rfl | rfl <;> rfl

/-- Claim C10: the paths handed to file-put are exactly the immediate
top-level entries of the scratch directory, in iteration order; directory
iteration is not recursive, so a path nested below a subdirectory (two or
more components) is never individually uploaded. -/
theorem uploads_are_top_level_entries (inp : RunInput) (evs : List Event)
    (h : processEvents inp = some evs) :
    putPaths evs = inp.extracted.map (fun en => [en.name]) ∧
      ∀ p ∈ fsForestPaths inp.extracted, 2 ≤ p.length → p ∉ putPaths evs := by
  have hput : putPaths evs = inp.extracted.map (fun en => [en.name]) := by
    unfold processEvents at h
    cases h0 : loadSettings inp.env with
    | none => rw [h0] at h; exact absurd h (by simp)
    | some s0 =>
      rw [h0] at h
      rcases Option.some.inj h with rfl
      rw [putPaths_append, putPaths_append, putPaths_append]
      rw [putPaths_uploads, putPaths_materializer]
      rw [show putPaths [Event.loadedSettings (effectiveSettings s0 inp.cliSchema),
          Event.connected (effectiveSettings s0 inp.cliSchema),
          Event.sql (Stmt.createSchemaIfNotExists inp.cliSchema),
          Event.sql (Stmt.useSchema inp.cliSchema),
          Event.madeTempDir, Event.unpackedArchive] = [] from rfl]
      rw [show putPaths [Event.removedTempDir] = [] from rfl]
      simp
  refine ⟨hput, ?_⟩
  intro p _ hlen hmem
  rw [hput] at hmem
  rcases List.mem_map.mp hmem with ⟨en, _, rfl⟩
  simp at hlen

/-- A run whose archive contains a subdirectory with a nested file. -/
def inpNested : RunInput :=
  ⟨"sch".toList, envOk,
    [FsEntry.file ("a.csv.gz".toList),
     FsEntry.dir ("sub".toList) [FsEntry.file ("b.csv.gz".toList)]], []⟩

/-- Witness for C10 at `inpNested`: the nested `sub/b.csv.gz` is within
the extracted tree but is not uploaded. -/
theorem uploads_are_top_level_entries_witness :
    processEvents inpNested = some ((processEvents inpNested).getD []) ∧
      (putPaths ((processEvents inpNested).getD []) =
          inpNested.extracted.map (fun en => [en.name]) ∧
        ∀ p ∈ fsForestPaths inpNested.extracted, 2 ≤ p.length →
          p ∉ putPaths ((processEvents inpNested).getD [])) :=
  ⟨rfl, uploads_are_top_level_entries inpNested
    ((processEvents inpNested).getD []) rfl⟩

end FlatironLoader
